import Mathlib

/-!
Shallow embedding of `boerenbridge.py` (a trick-taking card-game model) and
verification of its specification claims.

Conventions used throughout:
* Python machine integers are `Nat`/`Int`; a suit variable that may be
  Python `None` is an `Option Nat`.
* Python operations that can raise (`list.pop` on a bad index,
  `list.index` on a missing element, indexing an empty list) return
  `Option`; `none` is a raised exception propagating to the caller.
* Python `list.sort` / `sorted` is Timsort, a stable sort.  A stable sort
  with comparator `le a b := not (b < a)` is a unique function of its
  input, so it is modelled by `List.insertionSort` (structurally
  recursive and proven stable in Mathlib) with that comparator.
-/

namespace Boerenbridge

open scoped List

/-- Card: a suit (0..3) and a rank (2..14), from `Card.__init__`. -/
structure Card where
  suit : Nat
  rank : Nat
deriving DecidableEq

/-- `Card.__lt__`: compares the tuples `(rank, suit)` lexicographically. -/
def Card.ltB (a b : Card) : Bool :=
  a.rank < b.rank || (a.rank == b.rank && a.suit < b.suit)

/-- Comparator of Python `list.sort()` on cards: `a` may stay before `b`
unless `b < a` under `Card.__lt__`. -/
def cardLe (a b : Card) : Bool := !(Card.ltB b a)

/-- `Card.has_lead_suit`: `self.suit == lead_suit` (with `lead_suit`
possibly `None`). -/
def Card.has_lead_suit (c : Card) (lead : Option Nat) : Bool :=
  some c.suit == lead

/-- `Card.is_trump`: `self.suit == trump_suit` (with `trump_suit`
possibly `None`). -/
def Card.is_trump (c : Card) (trump : Option Nat) : Bool :=
  some c.suit == trump

/-- Comparator of Python `list.sort(key=f)` for a boolean key `f`
(`False < True`): `a` may stay before `b` unless `f b < f a`. -/
def boolKeyLe (f : α → Bool) (a b : α) : Bool := !(f a) || f b

/-- Stable sort with a boolean comparator: the model of Python's stable
`list.sort` / `sorted`. -/
def bsort (le' : α → α → Bool) (l : List α) : List α :=
  l.insertionSort (fun a b => le' a b = true)

/-- `Hand.filter_suit`: the cards of the hand whose `suit` equals the given
(possibly `None`) suit.  The suit projection `key` lets the same code act
on plain cards and on label-carrying cards. -/
def filter_suit (key : α → Nat) (cards : List α) (suit : Option Nat) : List α :=
  cards.filter (fun c => some (key c) == suit)

/-- `Hand.playable_cards(lead_suit, trump_suit)` from the source:
lead-suit cards if any (together with the trump-suit cards when those
exist and the suits differ), otherwise the whole hand. -/
def playable_cards (key : α → Nat) (cards : List α) (lead trump : Option Nat) :
    List α :=
  let leads := filter_suit key cards lead
  let trumps := filter_suit key cards trump
  if leads.isEmpty = false then
    if trumps.isEmpty = false ∧ lead ≠ trump then leads ++ trumps else leads
  else cards

/-- Python sequence-index resolution: negative indices wrap around the
length. -/
def pyIdx (len : Nat) (i : Int) : Int :=
  if i < 0 then i + len else i

/-- Python list indexing `l[i]` with negative-index wrap-around;
`none` is an `IndexError`. -/
def pyGet (l : List α) (i : Int) : Option α :=
  if pyIdx l.length i < 0 then none else l[(pyIdx l.length i).toNat]?

/-- Python `list.pop(i)`: returns the removed element and the remaining
list; `none` is an `IndexError`. -/
def pyPop (l : List α) (i : Int) : Option (α × List α) :=
  if pyIdx l.length i < 0 then none
  else match l[(pyIdx l.length i).toNat]? with
    | some c => some (c, l.eraseIdx (pyIdx l.length i).toNat)
    | none => none

/-- `Deck.move_cards(hand, num, i)`: pop `num` cards from the source at
index `i` (default `-1`), appending each to the destination
(`Deck.add_card`).  `none` is a raised `IndexError`. -/
def move_cards (src dst : List α) (num : Nat) (i : Int) :
    Option (List α × List α) :=
  match num with
  | 0 => some (src, dst)
  | n + 1 =>
    match pyPop src i with
    | some (c, src') => move_cards src' (dst ++ [c]) n i
    | none => none

/-- `Deck.move_specific_card(hand, card)`: looks the card up with
`list.index` (a `ValueError`, i.e. `none`, when absent) and moves that
one card. -/
def move_specific_card [BEq α] (src dst : List α) (card : α) :
    Option (List α × List α) :=
  match src.indexOf? card with
  | some n => move_cards src dst 1 (n : Int)
  | none => none

/-- `Trick.sort` from the source: three stable sorting passes, first by
`Card.__lt__` (rank then suit), then by the boolean key
`has_lead_suit`, then by the boolean key `is_trump`.  `key` projects the
card out of a trick entry (trick entries may carry a player label). -/
def sortCards (key : α → Card) (lead trump : Option Nat) (cs : List α) :
    List α :=
  bsort (boolKeyLe (fun x => (key x).is_trump trump))
    (bsort (boolKeyLe (fun x => (key x).has_lead_suit lead))
      (bsort (fun a b => cardLe (key a) (key b)) cs))

/-- `Trick.highest_card`: sort the trick (in place) and return the last
card; `none` is the `IndexError` of `self.cards[-1]` on an empty trick. -/
def highest_card_of (key : α → Card) (lead trump : Option Nat)
    (cs : List α) : Option α :=
  (sortCards key lead trump cs).getLast?

/-! ## The executable game model

A `GCard` is a card object as it lives inside the running game: Python
attaches a `label` attribute to a card when it is played
(`Player.start`), so the model carries `label : Option Nat`, `none`
standing for the attribute not having been set yet. -/

/-- Card object in the running game: a card plus the optional `label`
attribute stamped on it by `Player.start`. -/
structure GCard extends Card where
  label : Option Nat
deriving DecidableEq

/-- `Player.__init__`: label, hand, `played_card = None`,
`tricks_won = 0`, `bids = 0`, `score = 0`. -/
structure GPlayer where
  label : Nat
  hand : List GCard
  played_card : Option GCard
  tricks_won : Nat
  bids : Nat
  score : Int
deriving DecidableEq

/-- `Trick.__init__`: empty card list, `lead_suit`, `trump_suit` and
`label` all `None`. -/
structure GTrick where
  cards : List GCard
  lead_suit : Option Nat
  trump_suit : Option Nat
  label : Option Nat
deriving DecidableEq

/-- The phases called, in order, by the body of the round loop
`Game.run`; recorded in a trace for the temporal claims. -/
inductive Phase where
  | starting
  | shuffling
  | trumpAssign
  | dealing
  | playing
  | scoring
deriving DecidableEq

/-- The mutable state of `Game`: deck, players, trick, current round
(1-based) and the game `label`, plus the instrumentation trace of round
phases. -/
structure Game where
  deck : List GCard
  players : List GPlayer
  trick : GTrick
  round : Nat
  label : Nat
  trace : List Phase
deriving DecidableEq

/-- `Game.nop`: the number of players. -/
def nop : Nat := 4

/-- `Game.noc`: cards dealt per player each round, `[1..13] ++ [13..1]`. -/
def noc : List Nat :=
  (List.range 13).map (fun i => i + 1) ++ (List.range 13).map (fun j => 13 - j)

/-- `Deck.__init__`: the 52 cards, suits 0..3, ranks 2..14, in that
nested-loop order; `label` attributes not yet set. -/
def mkDeck : List GCard :=
  (List.range 4).flatMap (fun suit =>
    (List.range 13).map (fun r => ⟨⟨suit, r + 2⟩, none⟩))

/-- `Game.dealer`: shuffle, deal one card per player into the trick,
stably sort the enumerated trick by card order, winner is the index of
the last entry (`ranked[-1][0]`), then move the cards back to the deck.
The trick is empty before and after, so it is modelled by a local
accumulator.  Returns the dealer label and the resulting deck. -/
def dealer (shuf : List GCard → List GCard) (deck : List GCard) :
    Option (Nat × List GCard) := do
  let d := shuf deck
  let (d', t) ← move_cards d [] nop (-1)
  let ranked := bsort (fun a b => cardLe a.2.toCard b.2.toCard) t.enum
  let w ← ranked.getLast?
  let (_, d'') ← move_cards t d' nop (-1)
  return (w.1, d'')

/-- `Game.__init__`: fresh deck, four fresh players, fresh trick,
`round = 1`, and the game label decided by `dealer`. -/
def mkGame (shuf : List GCard → List GCard) : Option Game := do
  let (lbl, deck') ← dealer shuf mkDeck
  return { deck := deck'
           players := (List.range nop).map (fun i => ⟨i, [], none, 0, 0, 0⟩)
           trick := ⟨[], none, none, none⟩
           round := 1
           label := lbl
           trace := [] }

/-- `Game.next_player`: `self.players[label - (self.nop - 1)]` (Python
negative indexing), also setting the trick's label to that player's. -/
def next_player (g : Game) (label : Nat) : Option (GPlayer × Game) := do
  let p ← pyGet g.players ((label : Int) - ((nop : Int) - 1))
  return (p, { g with trick := { g.trick with label := some p.label } })

/-- `Player.start` (without its printing): compute the playable cards,
pick `playable[0]` (an `IndexError`, hence `none`, on an empty list),
set the card's `label` attribute to the player's label — an in-place
object mutation, so the copy held in the hand is updated too — and
record it as `played_card`. -/
def player_start (p : GPlayer) (lead trump : Option Nat) :
    Option (GPlayer × GCard) := do
  let playable := playable_cards (fun c => c.suit) p.hand lead trump
  let c ← pyGet playable 0
  let c' : GCard := { c with label := some p.label }
  let hand' := p.hand.map (fun x => if x = c then c' else x)
  return ({ p with hand := hand', played_card := some c' }, c')

/-- The for-loop in `Game.play`: each player whose label equals the
trick's label plays (`Player.start`, then
`player.hand.move_specific_card(self.trick, card)`).  Threads the
Python local variable `card` through.  Returns the updated players,
trick cards and `card` variable. -/
def play_for_loop (tl : Option Nat) (lead trump : Option Nat) :
    List GPlayer → List GCard → Option GCard →
    Option (List GPlayer × List GCard × Option GCard)
  | [], tc, cardVar => some ([], tc, cardVar)
  | p :: ps, tc, cardVar =>
    if some p.label == tl then do
      let (p', c) ← player_start p lead trump
      let (h', tc') ← move_specific_card p'.hand tc c
      let (ps', tc'', cv') ← play_for_loop tl lead trump ps tc' (some c)
      return ({ p' with hand := h' } :: ps', tc'', cv')
    else do
      let (ps', tc', cv') ← play_for_loop tl lead trump ps tc cardVar
      return (p :: ps', tc', cv')

/-- `Trick.highest_card` as it acts on the trick state: the card list is
replaced by its sorted version (the in-place `self.sort()`), and the
last card is returned. -/
def GTrick.highest_card (t : GTrick) : Option (GCard × GTrick) :=
  let sorted := sortCards GCard.toCard t.lead_suit t.trump_suit t.cards
  match sorted.getLast? with
  | some c => some (c, { t with cards := sorted })
  | none => none

/-- `Game.leading_player`: take the trick's highest card (sorting the
trick in place), look up `self.players[card.label]` and set the trick's
label to that player's.  Reading a `label` attribute that was never set
is an `AttributeError`, hence the bind on `card.label`. -/
def leading_player (g : Game) : Option (GPlayer × Game) := do
  let (card, t') ← g.trick.highest_card
  let lbl ← card.label
  let p ← pyGet g.players (lbl : Int)
  return (p, { g with trick := { t' with label := some p.label } })

/-- `Game.trick_complete`: credit the leading player with a trick, clear
the lead suit, move the trick's cards back to the deck. -/
def trick_complete (g : Game) : Option Game := do
  let (p, g1) ← leading_player g
  let ps' := g1.players.map (fun q =>
    if q.label == p.label then { q with tricks_won := q.tricks_won + 1 } else q)
  let (tc', d') ← move_cards g1.trick.cards g1.deck nop (-1)
  return { g1 with players := ps'
                   deck := d'
                   trick := { g1.trick with cards := tc', lead_suit := none } }

/-- One iteration of the while-loop in `Game.play`: run the for-loop over
the players, set the lead suit when the trick holds exactly one card,
then either complete the trick (at `nop` cards) or advance to the next
player. -/
def play_step (g : Game) (cardVar : Option GCard) :
    Option (Game × Option GCard) := do
  let (ps', tc', cv) ← play_for_loop g.trick.label g.trick.lead_suit
    g.trick.trump_suit g.players g.trick.cards cardVar
  let g1 := { g with players := ps', trick := { g.trick with cards := tc' } }
  let g2 ←
    if tc'.length == 1 then do
      let c ← cv
      pure { g1 with trick := { g1.trick with lead_suit := some c.suit } }
    else pure g1
  if tc'.length == nop then do
    let g3 ← trick_complete g2
    return (g3, cv)
  else do
    let tl ← g2.trick.label
    let (_, g3) ← next_player g2 tl
    return (g3, cv)

/-- The while-loop of `Game.play` (`while any(player.hand.cards ...)`),
with explicit fuel; running out of fuel is modelled as failure. -/
def play_loop : Nat → Game → Option GCard → Option Game
  | 0, _, _ => none
  | fuel + 1, g, cv =>
    if g.players.any (fun p => !p.hand.isEmpty) then do
      let (g', cv') ← play_step g cv
      play_loop fuel g' cv'
    else some g

/-- `Game.starting_player`: `self.label = self.next_player(self.label).label`. -/
def phase_starting (g : Game) : Option Game := do
  let (p, g') ← next_player g g.label
  return { g' with label := p.label, trace := g.trace ++ [Phase.starting] }

/-- `self.deck.shuffle()` in the round loop; `shuf` is the permutation
drawn by `random.shuffle`. -/
def phase_shuffling (shuf : List GCard → List GCard) (g : Game) : Game :=
  { g with deck := shuf g.deck, trace := g.trace ++ [Phase.shuffling] }

/-- `Game.pull_trump`: on even rounds the trump suit is the suit of the
deck's last card (`self.deck.cards[-1]`) and the deck is reshuffled; on
odd rounds the trump suit is `None`. -/
def phase_trump (shuf : List GCard → List GCard) (g : Game) : Option Game :=
  if g.round % 2 == 0 then do
    let c ← pyGet g.deck (-1)
    return { g with trick := { g.trick with trump_suit := some c.suit }
                    deck := shuf g.deck
                    trace := g.trace ++ [Phase.trumpAssign] }
  else
    some { g with trick := { g.trick with trump_suit := none }
                  trace := g.trace ++ [Phase.trumpAssign] }

/-- The player-by-player dealing loop of `Game.deal_hands`. -/
def deal_loop (n : Nat) : List GPlayer → List GCard →
    Option (List GPlayer × List GCard)
  | [], deck => some ([], deck)
  | p :: ps, deck => do
    let (deck', h') ← move_cards deck p.hand n (-1)
    let (ps', deck'') ← deal_loop n ps deck'
    return ({ p with hand := h' } :: ps', deck'')

/-- `Game.deal_hands`: deal `noc[round - 1]` cards to every hand. -/
def phase_dealing (g : Game) : Option Game := do
  let n ← pyGet noc ((g.round : Int) - 1)
  let (ps', deck') ← deal_loop n g.players g.deck
  return { g with players := ps'
                  deck := deck'
                  trace := g.trace ++ [Phase.dealing] }

/-- `Game.play` as a round phase.  `play_step` never touches the trace,
so tagging the trace once here matches instrumenting the call site. -/
def phase_playing (fuel : Nat) (g : Game) : Option Game := do
  let g' ← play_loop fuel g none
  return { g' with trace := g.trace ++ [Phase.playing] }

/-- The per-player body of `Score.adjust`. -/
def adjust_player (p : GPlayer) : GPlayer :=
  if p.tricks_won == p.bids then
    { p with score := p.score + (p.tricks_won * 2 + 5) }
  else
    { p with score := p.score -
        ((((p.tricks_won : Int) - (p.bids : Int)).natAbs : Int) * 2) }

/-- `Score.adjust`: apply the bid-versus-wins rule to every player. -/
def score_adjust (ps : List GPlayer) : List GPlayer :=
  ps.map adjust_player

/-- `self.score.adjust()` as a round phase. -/
def phase_scoring (g : Game) : Game :=
  { g with players := score_adjust g.players
           trace := g.trace ++ [Phase.scoring] }

/-- The body of the round loop in `Game.run`: starting player, shuffle,
pull trump, deal hands, play, adjust scores, `round += 1` — in exactly
that source order. -/
def run_round (shuf : List GCard → List GCard) (fuel : Nat) (g : Game) :
    Option Game := do
  let g1 ← phase_starting g
  let g2 := phase_shuffling shuf g1
  let g3 ← phase_trump shuf g2
  let g4 ← phase_dealing g3
  let g5 ← phase_playing fuel g4
  let g6 := phase_scoring g5
  return { g6 with round := g6.round + 1 }

/-! ## Concrete deterministic runs used as evidence

`id` as the shuffle means `random.shuffle` happened to leave the list
unchanged — one possible and perfectly legal draw of randomness. -/

/-- `Game()` with the identity shuffle. -/
def game0 : Option Game := mkGame id

/-- The state after round 1 of `Game.run` (identity shuffles). -/
def afterRound1 : Option Game := game0.bind (run_round id 64)

/-- The state of the deterministic game at the start of round 2's play
phase: round 2's starting player, shuffle, trump pull and dealing have
happened, `Game.play` has not yet run. -/
def round2PrePlay : Option Game :=
  (((afterRound1.bind phase_starting).map (phase_shuffling id)).bind
    (phase_trump id)).bind phase_dealing

/-- The phase tags one execution of the `Game.run` loop body appends. -/
def roundTrace : List Phase :=
  [Phase.starting, Phase.shuffling, Phase.trumpAssign, Phase.dealing,
   Phase.playing, Phase.scoring]

/-- A throwaway game state (used only as the default of `Option.getD`
on computations that provably succeed). -/
def gFallback : Game := ⟨[], [], ⟨[], none, none, none⟩, 1, 0, []⟩

/-- The concrete initial game of the deterministic run. -/
def g0def : Game := game0.getD gFallback

/-- The concrete state after round 1 of the deterministic run. -/
def g1def : Game := (run_round id 64 g0def).getD gFallback

/-! ## The card-conservation state machine (for the container claims)

Cards are identified by their immutable `(suit, rank)` fields (Python
identity of the 52 `Card` objects, which are only ever moved, never
created or destroyed).  The state carries every container of the game:
the deck, the four hands, and the trick. -/

/-- The card containers of a running game. -/
structure CState where
  deck : List Card
  hand0 : List Card
  hand1 : List Card
  hand2 : List Card
  hand3 : List Card
  trick : List Card
deriving DecidableEq

/-- The plain 52-card deck contents of `Deck.__init__`. -/
def mkDeckC : List Card :=
  (List.range 4).flatMap (fun suit =>
    (List.range 13).map (fun r => ⟨suit, r + 2⟩))

/-- Hand of player `i`. -/
def getHand (s : CState) : Fin 4 → List Card
  | ⟨0, _⟩ => s.hand0
  | ⟨1, _⟩ => s.hand1
  | ⟨2, _⟩ => s.hand2
  | ⟨3, _⟩ => s.hand3

/-- Replace the hand of player `i`. -/
def setHand (s : CState) : Fin 4 → List Card → CState
  | ⟨0, _⟩, h => { s with hand0 := h }
  | ⟨1, _⟩, h => { s with hand1 := h }
  | ⟨2, _⟩, h => { s with hand2 := h }
  | ⟨3, _⟩, h => { s with hand3 := h }

/-- All cards in the game, over every container. -/
def allCards (s : CState) : List Card :=
  s.deck ++ s.hand0 ++ s.hand1 ++ s.hand2 ++ s.hand3 ++ s.trick

/-- `Game.__init__`: full deck, empty hands, empty trick. -/
def initState : CState := ⟨mkDeckC, [], [], [], [], []⟩

/-- Every card-moving operation of the program, as a step relation:
`random.shuffle` of the deck (any permutation), the in-place trick sort
of `Trick.sort` (a permutation), the dealer-selection moves
deck→trick→deck (`Game.dealer`), dealing deck→hand (`Game.deal_hands`),
playing a specific card hand→trick (`Game.play`), and returning the
trick to the deck (`Game.trick_complete`).  Steps exist only for the
executions in which the underlying move succeeds (a failed move raises
and the program state after it does not exist). -/
inductive GStep : CState → CState → Prop where
  | shuffle (s : CState) (d' : List Card) (hp : d'.Perm s.deck) :
      GStep s { s with deck := d' }
  | sort_trick (s : CState) (t' : List Card) (hp : t'.Perm s.trick) :
      GStep s { s with trick := t' }
  | deck_to_trick (s : CState) (n : Nat) (d' t' : List Card)
      (h : move_cards s.deck s.trick n (-1) = some (d', t')) :
      GStep s { s with deck := d', trick := t' }
  | trick_to_deck (s : CState) (n : Nat) (t' d' : List Card)
      (h : move_cards s.trick s.deck n (-1) = some (t', d')) :
      GStep s { s with trick := t', deck := d' }
  | deal (s : CState) (i : Fin 4) (n : Nat) (d' h' : List Card)
      (h : move_cards s.deck (getHand s i) n (-1) = some (d', h')) :
      GStep s (setHand { s with deck := d' } i h')
  | play (s : CState) (i : Fin 4) (c : Card) (h' t' : List Card)
      (h : move_specific_card (getHand s i) s.trick c = some (h', t')) :
      GStep s (setHand { s with trick := t' } i h')

/-- Card conservation: the multiset of all cards over all containers is
the fixed 52-card deck. -/
def conserved (s : CState) : Prop :=
  (allCards s : Multiset Card) = (mkDeckC : Multiset Card)

/-! ## The specification order for trick resolution

The claim about `Trick.highest_card` describes a three-key lexicographic
order (matches-trump, matches-lead, then `(rank, suit)`), with
`false < true` on the boolean keys.  These definitions state that order;
the theorem compares the sort-based code against it. -/

/-- Strict order on booleans, `false < true`. -/
def bLt (x y : Bool) : Prop := x = false ∧ y = true

/-- The three-key order of the claim: matches-trump, then matches-lead,
then `(rank, suit)` lexicographically. -/
def trickKeyLe (lead trump : Option Nat) (a b : Card) : Prop :=
  bLt (a.is_trump trump) (b.is_trump trump) ∨
    (a.is_trump trump = b.is_trump trump ∧
      (bLt (a.has_lead_suit lead) (b.has_lead_suit lead) ∨
        (a.has_lead_suit lead = b.has_lead_suit lead ∧
          (a.rank < b.rank ∨ (a.rank = b.rank ∧ a.suit ≤ b.suit)))))

/-! # Theorems -/

/-! ## Python list-primitive lemmas -/

/-- Removing a valid index is a permutation split of the list. -/
theorem perm_getElem_eraseIdx (l : List α) (n : Nat) (hn : n < l.length) :
    l.Perm (l.get ⟨n, hn⟩ :: l.eraseIdx n) := by
  calc l = l.take n ++ l.drop n := (List.take_append_drop n l).symm
    _ = l.take n ++ (l.get ⟨n, hn⟩ :: l.drop (n + 1)) := by
        rw [List.get_eq_getElem, ← List.drop_eq_getElem_cons hn]
    _ ~ l.get ⟨n, hn⟩ :: (l.take n ++ l.drop (n + 1)) := List.perm_middle
    _ = l.get ⟨n, hn⟩ :: l.eraseIdx n := by
        rw [List.eraseIdx_eq_take_drop_succ]

/-- Popping the default index `-1` from a non-empty list removes and
returns the last element. -/
theorem pyPop_concat (l : List α) (a : α) :
    pyPop (l ++ [a]) (-1) = some (a, l) := by
  have hj : pyIdx (l ++ [a]).length (-1) = (l.length : Int) := by
    simp only [pyIdx, List.length_append, List.length_cons, List.length_nil]
    rw [if_pos (by norm_num)]
    push_cast
    ring
  have h0 : ¬ ((l.length : Int) < 0) := by omega
  have herase : (l ++ [a]).eraseIdx l.length = l := by
    rw [List.eraseIdx_eq_take_drop_succ, List.take_left,
      show l.length + 1 = (l ++ [a]).length by simp, List.drop_length,
      List.append_nil]
  simp only [pyPop, hj, if_neg h0, Int.toNat_natCast,
    List.getElem?_concat_length, herase]

/-- Popping from an empty list fails. -/
theorem pyPop_nil (i : Int) : pyPop ([] : List α) i = none := by
  simp [pyPop]

/-- Popping a valid non-negative index removes exactly that element. -/
theorem pyPop_at_nat {l : List α} {n : Nat} (hn : n < l.length) :
    pyPop l (n : Int) = some (l.get ⟨n, hn⟩, l.eraseIdx n) := by
  have h0 : ¬ ((n : Int) < 0) := by omega
  have hj : pyIdx l.length (n : Int) = (n : Int) := if_neg h0
  have hx : l[n]? = some (l.get ⟨n, hn⟩) := by
    rw [List.getElem?_eq_some_iff]
    exact ⟨hn, rfl⟩
  simp only [pyPop, hj, if_neg h0, Int.toNat_natCast, hx]

/-- A successful pop (at any index) is a permutation split of the list. -/
theorem pyPop_some_perm {l : List α} {i : Int} {c : α} {l' : List α}
    (h : pyPop l i = some (c, l')) : l.Perm (c :: l') := by
  simp only [pyPop] at h
  split at h
  · exact absurd h (by simp)
  · rcases hget : l[(pyIdx l.length i).toNat]? with _ | x
    · rw [hget] at h
      exact absurd h (by simp)
    · rw [hget] at h
      simp only [Option.some.injEq, Prod.mk.injEq] at h
      obtain ⟨hlt, hx⟩ := List.getElem?_eq_some_iff.mp hget
      have hperm := perm_getElem_eraseIdx l (pyIdx l.length i).toNat hlt
      rw [show l.get ⟨(pyIdx l.length i).toNat, hlt⟩ =
          l[(pyIdx l.length i).toNat] from rfl, hx] at hperm
      rw [← h.1, ← h.2]
      exact hperm

/-- A successful `move_cards` permutes the union of the two containers. -/
theorem move_cards_perm : ∀ {num : Nat} {src dst src' dst' : List α} {i : Int},
    move_cards src dst num i = some (src', dst') →
    (src' ++ dst').Perm (src ++ dst)
  | 0, src, dst, src', dst', i, h => by
    simp only [move_cards, Option.some.injEq, Prod.mk.injEq] at h
    rw [h.1, h.2]
  | n + 1, src, dst, src', dst', i, h => by
    simp only [move_cards] at h
    rcases hpop : pyPop src i with _ | ⟨c, s₀⟩
    · rw [hpop] at h
      exact absurd h (by simp)
    · rw [hpop] at h
      have ih := move_cards_perm h
      have h1 : src.Perm (c :: s₀) := pyPop_some_perm hpop
      calc src' ++ dst'
          ~ s₀ ++ (dst ++ [c]) := ih
        _ = (s₀ ++ dst) ++ [c] := by rw [List.append_assoc]
        _ ~ [c] ++ (s₀ ++ dst) := List.perm_append_comm
        _ = (c :: s₀) ++ dst := rfl
        _ ~ src ++ dst := (h1.append_right dst).symm

/-- `move_cards` at the default index fails exactly when asked for more
cards than the source holds. -/
theorem move_cards_none_iff : ∀ (num : Nat) (src dst : List α),
    (move_cards src dst num (-1) = none ↔ src.length < num)
  | 0, src, dst => by simp [move_cards]
  | n + 1, src, dst => by
    rcases List.eq_nil_or_concat src with rfl | ⟨l, a, rfl⟩
    · simp [move_cards, pyPop_nil]
    · rw [List.concat_eq_append]
      simp only [move_cards, pyPop_concat]
      rw [move_cards_none_iff n l (dst ++ [a])]
      simp only [List.length_append, List.length_cons, List.length_nil]
      omega

/-- A successful `move_specific_card` moves exactly the looked-up card. -/
theorem move_specific_perm [DecidableEq α] {src dst src' dst' : List α} {c : α}
    (h : move_specific_card src dst c = some (src', dst')) :
    (src' ++ dst').Perm (src ++ dst) := by
  simp only [move_specific_card] at h
  rcases hidx : src.indexOf? c with _ | n
  · rw [hidx] at h
    exact absurd h (by simp)
  · rw [hidx] at h
    exact move_cards_perm h

/-- `indexOf?` returns an index below the length. -/
theorem indexOf?_lt_length [BEq α] : ∀ {l : List α} {c : α} {n : Nat},
    l.indexOf? c = some n → n < l.length
  | [], c, n, h => by simp at h
  | x :: t, c, n, h => by
    rw [List.indexOf?_cons] at h
    split at h
    · simp only [Option.some.injEq] at h
      simp only [List.length_cons]
      omega
    · rcases hidx : List.indexOf? c t with _ | m
      · rw [hidx] at h
        simp at h
      · rw [hidx] at h
        simp only [Option.map_some', Option.some.injEq] at h
        have := indexOf?_lt_length hidx
        simp only [List.length_cons]
        omega

/-- A list is not `isEmpty` exactly when it is not `[]`. -/
theorem isEmpty_false_iff (l : List α) : l.isEmpty = false ↔ l ≠ [] := by
  cases l <;> simp

/-- `pyGet` at index `0` of a non-empty list is its head. -/
theorem pyGet_zero_cons (c : α) (t : List α) : pyGet (c :: t) 0 = some c := by
  simp [pyGet, pyIdx]

/-! ## C9: failure behaviour of the container-move primitives -/

/-- C9: `move_cards(from, to, n)` (default index) fails exactly when `n`
exceeds the source size, and `move_specific_card(from, to, card)` fails
exactly when the card is not in the source; the failure is a raised
exception (`none`) reaching the caller, never a silent no-op. -/
theorem claim9_move_errors {α : Type} [DecidableEq α] :
    (∀ (src dst : List α) (num : Nat),
      move_cards src dst num (-1) = none ↔ src.length < num) ∧
    (∀ (src dst : List α) (c : α),
      move_specific_card src dst c = none ↔ c ∉ src) := by
  refine ⟨fun src dst num => move_cards_none_iff num src dst,
    fun src dst c => ?_⟩
  constructor
  · intro h hmem
    simp only [move_specific_card] at h
    rcases hidx : src.indexOf? c with _ | n
    · rw [List.indexOf?_eq_none_iff] at hidx
      exact hidx c hmem (by simp)
    · rw [hidx] at h
      have hn := indexOf?_lt_length hidx
      rw [show ((1 : Nat) = 0 + 1) from rfl] at h
      simp only [move_cards, pyPop_at_nat hn] at h
      exact Option.noConfusion h
  · intro hmem
    simp only [move_specific_card]
    have hnone : src.indexOf? c = none := by
      rw [List.indexOf?_eq_none_iff]
      intro x hx hbeq
      exact hmem (by rwa [eq_of_beq hbeq] at hx)
    rw [hnone]

/-- C9 witness: moving 2 cards out of a 1-card deck raises, and moving a
card that is not in the hand raises. -/
theorem claim9_witness :
    move_cards [Card.mk 0 2] ([] : List Card) 2 (-1) = none ∧
    move_specific_card [Card.mk 0 2] ([] : List Card) (Card.mk 1 3) = none := by
  constructor
  · exact ((claim9_move_errors (α := Card)).1 _ _ 2).mpr (by decide)
  · exact ((claim9_move_errors (α := Card)).2 _ _ _).mpr (by decide)

/-! ## C6: the `next_player` indexing trick -/

/-- Core of C6: on a 4-element list, Python indexing at `label - 3`
agrees with indexing at `(label + 1) % 4`. -/
theorem pyGet_next_eq {β : Type} (ps : List β) (h4 : ps.length = 4)
    (lbl : Nat) (hl : lbl < 4) :
    pyGet ps ((lbl : Int) - 3) = pyGet ps (((lbl + 1) % 4 : Nat) : Int) := by
  interval_cases lbl <;>
    · simp only [pyGet, pyIdx, h4]
      norm_num

/-- C6: `next_player(label)` (reference indexing `players[label - (nop - 1)]`)
returns the same player as the explicit `players[(label + 1) % nop]`. -/
theorem claim6_next_player (g : Game) (h4 : g.players.length = 4)
    (lbl : Nat) (hl : lbl < 4) :
    (next_player g lbl).map Prod.fst =
      pyGet g.players (((lbl + 1) % nop : Nat) : Int) := by
  have hidx : ((lbl : Int) - ((nop : Int) - 1)) = (lbl : Int) - 3 := by
    simp only [nop, Nat.cast_ofNat]
    norm_num
  have hcore := pyGet_next_eq g.players h4 lbl hl
  have hmod : ((lbl + 1) % nop : Nat) = ((lbl + 1) % 4 : Nat) := rfl
  rw [hmod, ← hcore]
  simp only [next_player, hidx]
  rcases hp : pyGet g.players ((lbl : Int) - 3) with _ | p <;> simp [hp]

/-- A concrete game with the four freshly created players. -/
def g6w : Game :=
  ⟨[], (List.range 4).map (fun i => ⟨i, [], none, 0, 0, 0⟩),
    ⟨[], none, none, none⟩, 1, 0, []⟩

/-- C6 witness: at label 2 of the concrete 4-player game. -/
theorem claim6_witness :
    (next_player g6w 2).map Prod.fst =
      pyGet g6w.players (((2 + 1) % nop : Nat) : Int) :=
  claim6_next_player g6w (by decide) 2 (by decide)

/-! ## C3: the per-round score rule -/

/-- C3: `Score.adjust` maps every player through the rule
`score += tricks_won*2 + 5` on an exact bid and
`score -= |tricks_won - bids| * 2` otherwise; in particular bids 3 and
3 tricks give +11, bids 2 and 5 tricks give -6. -/
theorem claim3_score_rule :
    (∀ (ps : List GPlayer) (i : Nat) (p : GPlayer), ps[i]? = some p →
      (score_adjust ps)[i]? = some (adjust_player p) ∧
      (adjust_player p).score =
        (if p.tricks_won = p.bids then p.score + (p.tricks_won * 2 + 5)
         else p.score - (((p.tricks_won : Int) - (p.bids : Int)).natAbs * 2)) ∧
      (adjust_player p).tricks_won = p.tricks_won ∧
      (adjust_player p).bids = p.bids ∧
      (adjust_player p).label = p.label) ∧
    (∀ p : GPlayer, p.bids = 3 → p.tricks_won = 3 →
      (adjust_player p).score = p.score + 11) ∧
    (∀ p : GPlayer, p.bids = 2 → p.tricks_won = 5 →
      (adjust_player p).score = p.score - 6) := by
  refine ⟨fun ps i p hp => ⟨?_, ?_, ?_, ?_, ?_⟩, fun p h2 h3 => ?_, fun p h2 h3 => ?_⟩
  · simp [score_adjust, List.getElem?_map, hp]
  · by_cases heq : p.tricks_won = p.bids <;>
      simp [adjust_player, heq]
  · simp only [adjust_player]
    split <;> rfl
  · simp only [adjust_player]
    split <;> rfl
  · simp only [adjust_player]
    split <;> rfl
  · simp [adjust_player, h2, h3]
  · simp [adjust_player, h2, h3]

/-- C3 witness: the two scenario players from the specification. -/
theorem claim3_witness :
    ((score_adjust [⟨0, [], none, 3, 3, 10⟩])[0]? =
      some (adjust_player ⟨0, [], none, 3, 3, 10⟩)) ∧
    (adjust_player ⟨0, [], none, 3, 3, 10⟩).score = 21 ∧
    (adjust_player ⟨1, [], none, 5, 2, 0⟩).score = -6 := by
  refine ⟨(claim3_score_rule.1 _ 0 _ rfl).1, ?_, ?_⟩
  · rw [claim3_score_rule.2.1 ⟨0, [], none, 3, 3, 10⟩ rfl rfl]
    norm_num
  · rw [claim3_score_rule.2.2 ⟨1, [], none, 5, 2, 0⟩ rfl rfl]
    norm_num

/-! ## C1 and C8: the playability engine -/

/-- Membership in `filter_suit`. -/
theorem mem_filter_suit {α : Type} (key : α → Nat) (cards : List α)
    (s : Option Nat) (c : α) :
    c ∈ filter_suit key cards s ↔ c ∈ cards ∧ some (key c) = s := by
  simp [filter_suit, List.mem_filter]

/-- C1: the three cases of `playable_cards`: lead and distinct trump
cards combined; lead cards only; the whole hand when no lead card is
held (in particular when the lead suit is undefined). -/
theorem claim1_playable_sets {α : Type} (key : α → Nat) (cards : List α)
    (lead trump : Option Nat) :
    (filter_suit key cards lead ≠ [] → filter_suit key cards trump ≠ [] →
      lead ≠ trump →
      ∀ c, c ∈ playable_cards key cards lead trump ↔
        (c ∈ cards ∧ (some (key c) = lead ∨ some (key c) = trump))) ∧
    (filter_suit key cards lead ≠ [] →
      (filter_suit key cards trump = [] ∨ lead = trump) →
      ∀ c, c ∈ playable_cards key cards lead trump ↔
        (c ∈ cards ∧ some (key c) = lead)) ∧
    (filter_suit key cards lead = [] →
      playable_cards key cards lead trump = cards) ∧
    (lead = none → playable_cards key cards lead trump = cards) := by
  have hcase3 : filter_suit key cards lead = [] →
      playable_cards key cards lead trump = cards := by
    intro hL
    rw [playable_cards, if_neg ?hval]
    case hval =>
      rw [hL]
      simp
  refine ⟨fun hL hT hne c => ?_, fun hL hTor c => ?_, hcase3, fun hln => ?_⟩
  · rw [playable_cards, if_pos ((isEmpty_false_iff _).mpr hL),
      if_pos ⟨(isEmpty_false_iff _).mpr hT, hne⟩]
    simp only [List.mem_append, mem_filter_suit]
    constructor
    · rintro (⟨hc, hs⟩ | ⟨hc, hs⟩)
      · exact ⟨hc, Or.inl hs⟩
      · exact ⟨hc, Or.inr hs⟩
    · rintro ⟨hc, hs | hs⟩
      · exact Or.inl ⟨hc, hs⟩
      · exact Or.inr ⟨hc, hs⟩
  · rw [playable_cards, if_pos ((isEmpty_false_iff _).mpr hL), if_neg ?hcond]
    case hcond =>
      rintro ⟨hemp, hne⟩
      rcases hTor with hT | heq
      · rw [hT] at hemp
        simp at hemp
      · exact hne heq
    exact mem_filter_suit key cards lead c
  · apply hcase3
    rw [hln]
    simp [filter_suit]

/-- C1 witness: a hand holding a club, a heart and a spade, with clubs
led and hearts trump: the heart is playable alongside the club. -/
theorem claim1_witness :
    Card.mk 2 5 ∈
      playable_cards Card.suit [Card.mk 0 2, Card.mk 2 5, Card.mk 3 9]
        (some 0) (some 2) :=
  ((claim1_playable_sets Card.suit _ (some 0) (some 2)).1 (by decide)
    (by decide) (by decide) _).mpr (by decide)

/-- C8: `playable_cards` of a non-empty hand is never empty, and the
`playable[0]` selection of `Player.start` always succeeds on it. -/
theorem claim8_playable_nonempty {α : Type} (key : α → Nat) (cards : List α)
    (lead trump : Option Nat) (h : cards ≠ []) :
    playable_cards key cards lead trump ≠ [] ∧
    (∃ c, pyGet (playable_cards key cards lead trump) 0 = some c) := by
  have hne : playable_cards key cards lead trump ≠ [] := by
    rw [playable_cards]
    split
    · rename_i hcond
      rw [isEmpty_false_iff] at hcond
      split
      · intro hcontra
        rw [List.append_eq_nil] at hcontra
        exact hcond hcontra.1
      · exact hcond
    · exact h
  refine ⟨hne, ?_⟩
  rcases hp : playable_cards key cards lead trump with _ | ⟨c, t⟩
  · exact absurd hp hne
  · exact ⟨c, by rw [pyGet_zero_cons]⟩

/-- C8 witness: a one-card hand with no lead and no trump suit. -/
theorem claim8_witness :
    playable_cards Card.suit [Card.mk 1 10] none none ≠ [] ∧
    (∃ c, pyGet (playable_cards Card.suit [Card.mk 1 10] none none) 0 = some c) :=
  claim8_playable_nonempty Card.suit _ none none (by decide)

/-! ## C7: card conservation across every card-moving operation -/

/-- The 52-card deck is duplicate-free. -/
theorem mkDeckC_nodup : mkDeckC.Nodup := by decide

/-- The initial game state satisfies the conservation invariant. -/
theorem init_conserved : conserved initState := by
  simp [conserved, allCards, initState]

/-- Every card-moving step of the game preserves the conservation
invariant. -/
theorem gstep_conserved {s s' : CState} (hstep : GStep s s')
    (hs : conserved s) : conserved s' := by
  have hs' : (s.deck : Multiset Card) + ↑s.hand0 + ↑s.hand1 + ↑s.hand2 +
      ↑s.hand3 + ↑s.trick = (mkDeckC : Multiset Card) := by
    simpa [allCards, ← Multiset.coe_add] using hs
  cases hstep with
  | shuffle d' hp =>
    have key : (d' : Multiset Card) = ↑s.deck := Multiset.coe_eq_coe.mpr hp
    simp only [conserved, allCards, ← Multiset.coe_add]
    rw [key]
    exact hs'
  | sort_trick t' hp =>
    have key : (t' : Multiset Card) = ↑s.trick := Multiset.coe_eq_coe.mpr hp
    simp only [conserved, allCards, ← Multiset.coe_add]
    rw [key]
    exact hs'
  | deck_to_trick n d' t' h =>
    have key : (d' : Multiset Card) + ↑t' = ↑s.deck + ↑s.trick := by
      have := Multiset.coe_eq_coe.mpr (move_cards_perm h)
      simpa [← Multiset.coe_add] using this
    simp only [conserved, allCards, ← Multiset.coe_add]
    calc (d' : Multiset Card) + ↑s.hand0 + ↑s.hand1 + ↑s.hand2 + ↑s.hand3 + ↑t'
        = (↑d' + ↑t') + (↑s.hand0 + ↑s.hand1 + ↑s.hand2 + ↑s.hand3) := by abel
      _ = (↑s.deck + ↑s.trick) +
          (↑s.hand0 + ↑s.hand1 + ↑s.hand2 + ↑s.hand3) := by rw [key]
      _ = ↑s.deck + ↑s.hand0 + ↑s.hand1 + ↑s.hand2 + ↑s.hand3 + ↑s.trick := by
          abel
      _ = ↑mkDeckC := hs'
  | trick_to_deck n t' d' h =>
    have key : (t' : Multiset Card) + ↑d' = ↑s.trick + ↑s.deck := by
      have := Multiset.coe_eq_coe.mpr (move_cards_perm h)
      simpa [← Multiset.coe_add] using this
    simp only [conserved, allCards, ← Multiset.coe_add]
    calc (d' : Multiset Card) + ↑s.hand0 + ↑s.hand1 + ↑s.hand2 + ↑s.hand3 + ↑t'
        = (↑t' + ↑d') + (↑s.hand0 + ↑s.hand1 + ↑s.hand2 + ↑s.hand3) := by abel
      _ = (↑s.trick + ↑s.deck) +
          (↑s.hand0 + ↑s.hand1 + ↑s.hand2 + ↑s.hand3) := by rw [key]
      _ = ↑s.deck + ↑s.hand0 + ↑s.hand1 + ↑s.hand2 + ↑s.hand3 + ↑s.trick := by
          abel
      _ = ↑mkDeckC := hs'
  | deal i n d' h' h =>
    rcases i with ⟨iv, hi⟩
    have hkey : ∀ hd : List Card, move_cards s.deck hd n (-1) = some (d', h') →
        (d' : Multiset Card) + ↑h' = ↑s.deck + ↑hd := by
      intro hd hmv
      have := Multiset.coe_eq_coe.mpr (move_cards_perm hmv)
      simpa [← Multiset.coe_add] using this
    interval_cases iv
    · have key := hkey s.hand0 (by simpa [getHand] using h)
      simp only [conserved, setHand, allCards, ← Multiset.coe_add]
      calc (d' : Multiset Card) + ↑h' + ↑s.hand1 + ↑s.hand2 + ↑s.hand3 + ↑s.trick
          = (↑d' + ↑h') + (↑s.hand1 + ↑s.hand2 + ↑s.hand3 + ↑s.trick) := by abel
        _ = (↑s.deck + ↑s.hand0) +
            (↑s.hand1 + ↑s.hand2 + ↑s.hand3 + ↑s.trick) := by rw [key]
        _ = ↑s.deck + ↑s.hand0 + ↑s.hand1 + ↑s.hand2 + ↑s.hand3 + ↑s.trick := by
            abel
        _ = ↑mkDeckC := hs'
    · have key := hkey s.hand1 (by simpa [getHand] using h)
      simp only [conserved, setHand, allCards, ← Multiset.coe_add]
      calc (d' : Multiset Card) + ↑s.hand0 + ↑h' + ↑s.hand2 + ↑s.hand3 + ↑s.trick
          = (↑d' + ↑h') + (↑s.hand0 + ↑s.hand2 + ↑s.hand3 + ↑s.trick) := by abel
        _ = (↑s.deck + ↑s.hand1) +
            (↑s.hand0 + ↑s.hand2 + ↑s.hand3 + ↑s.trick) := by rw [key]
        _ = ↑s.deck + ↑s.hand0 + ↑s.hand1 + ↑s.hand2 + ↑s.hand3 + ↑s.trick := by
            abel
        _ = ↑mkDeckC := hs'
    · have key := hkey s.hand2 (by simpa [getHand] using h)
      simp only [conserved, setHand, allCards, ← Multiset.coe_add]
      calc (d' : Multiset Card) + ↑s.hand0 + ↑s.hand1 + ↑h' + ↑s.hand3 + ↑s.trick
          = (↑d' + ↑h') + (↑s.hand0 + ↑s.hand1 + ↑s.hand3 + ↑s.trick) := by abel
        _ = (↑s.deck + ↑s.hand2) +
            (↑s.hand0 + ↑s.hand1 + ↑s.hand3 + ↑s.trick) := by rw [key]
        _ = ↑s.deck + ↑s.hand0 + ↑s.hand1 + ↑s.hand2 + ↑s.hand3 + ↑s.trick := by
            abel
        _ = ↑mkDeckC := hs'
    · have key := hkey s.hand3 (by simpa [getHand] using h)
      simp only [conserved, setHand, allCards, ← Multiset.coe_add]
      calc (d' : Multiset Card) + ↑s.hand0 + ↑s.hand1 + ↑s.hand2 + ↑h' + ↑s.trick
          = (↑d' + ↑h') + (↑s.hand0 + ↑s.hand1 + ↑s.hand2 + ↑s.trick) := by abel
        _ = (↑s.deck + ↑s.hand3) +
            (↑s.hand0 + ↑s.hand1 + ↑s.hand2 + ↑s.trick) := by rw [key]
        _ = ↑s.deck + ↑s.hand0 + ↑s.hand1 + ↑s.hand2 + ↑s.hand3 + ↑s.trick := by
            abel
        _ = ↑mkDeckC := hs'
  | play i c h' t' h =>
    rcases i with ⟨iv, hi⟩
    have hkey : ∀ hd : List Card, move_specific_card hd s.trick c = some (h', t') →
        (h' : Multiset Card) + ↑t' = ↑hd + ↑s.trick := by
      intro hd hmv
      have := Multiset.coe_eq_coe.mpr (move_specific_perm hmv)
      simpa [← Multiset.coe_add] using this
    interval_cases iv
    · have key := hkey s.hand0 (by simpa [getHand] using h)
      simp only [conserved, setHand, allCards, ← Multiset.coe_add]
      calc (s.deck : Multiset Card) + ↑h' + ↑s.hand1 + ↑s.hand2 + ↑s.hand3 + ↑t'
          = (↑h' + ↑t') + (↑s.deck + ↑s.hand1 + ↑s.hand2 + ↑s.hand3) := by abel
        _ = (↑s.hand0 + ↑s.trick) +
            (↑s.deck + ↑s.hand1 + ↑s.hand2 + ↑s.hand3) := by rw [key]
        _ = ↑s.deck + ↑s.hand0 + ↑s.hand1 + ↑s.hand2 + ↑s.hand3 + ↑s.trick := by
            abel
        _ = ↑mkDeckC := hs'
    · have key := hkey s.hand1 (by simpa [getHand] using h)
      simp only [conserved, setHand, allCards, ← Multiset.coe_add]
      calc (s.deck : Multiset Card) + ↑s.hand0 + ↑h' + ↑s.hand2 + ↑s.hand3 + ↑t'
          = (↑h' + ↑t') + (↑s.deck + ↑s.hand0 + ↑s.hand2 + ↑s.hand3) := by abel
        _ = (↑s.hand1 + ↑s.trick) +
            (↑s.deck + ↑s.hand0 + ↑s.hand2 + ↑s.hand3) := by rw [key]
        _ = ↑s.deck + ↑s.hand0 + ↑s.hand1 + ↑s.hand2 + ↑s.hand3 + ↑s.trick := by
            abel
        _ = ↑mkDeckC := hs'
    · have key := hkey s.hand2 (by simpa [getHand] using h)
      simp only [conserved, setHand, allCards, ← Multiset.coe_add]
      calc (s.deck : Multiset Card) + ↑s.hand0 + ↑s.hand1 + ↑h' + ↑s.hand3 + ↑t'
          = (↑h' + ↑t') + (↑s.deck + ↑s.hand0 + ↑s.hand1 + ↑s.hand3) := by abel
        _ = (↑s.hand2 + ↑s.trick) +
            (↑s.deck + ↑s.hand0 + ↑s.hand1 + ↑s.hand3) := by rw [key]
        _ = ↑s.deck + ↑s.hand0 + ↑s.hand1 + ↑s.hand2 + ↑s.hand3 + ↑s.trick := by
            abel
        _ = ↑mkDeckC := hs'
    · have key := hkey s.hand3 (by simpa [getHand] using h)
      simp only [conserved, setHand, allCards, ← Multiset.coe_add]
      calc (s.deck : Multiset Card) + ↑s.hand0 + ↑s.hand1 + ↑s.hand2 + ↑h' + ↑t'
          = (↑h' + ↑t') + (↑s.deck + ↑s.hand0 + ↑s.hand1 + ↑s.hand2) := by abel
        _ = (↑s.hand3 + ↑s.trick) +
            (↑s.deck + ↑s.hand0 + ↑s.hand1 + ↑s.hand2) := by rw [key]
        _ = ↑s.deck + ↑s.hand0 + ↑s.hand1 + ↑s.hand2 + ↑s.hand3 + ↑s.trick := by
            abel
        _ = ↑mkDeckC := hs'

/-- C7: every state reachable through the card-moving operations
(shuffles, the dealer-selection deal and return, dealing, playing into
the trick, trick sorting, returning the trick) has deck ∪ hands ∪ trick
equal, as a multiset, to the fixed 52-card set, with no card in two
places. -/
theorem claim7_card_conservation (s : CState)
    (h : Relation.ReflTransGen GStep initState s) :
    conserved s ∧ (allCards s).Nodup := by
  have hcons : conserved s := by
    induction h with
    | refl => exact init_conserved
    | tail hpre hstep ih => exact gstep_conserved hstep ih
  refine ⟨hcons, ?_⟩
  have hperm : (allCards s).Perm mkDeckC := Multiset.coe_eq_coe.mp hcons
  exact hperm.symm.nodup mkDeckC_nodup

/-- C7 witness: the invariant holds at the initial state. -/
theorem claim7_witness : conserved initState ∧ (allCards initState).Nodup :=
  claim7_card_conservation initState Relation.ReflTransGen.refl

/-! ## Sorting machinery for the trick resolver (C2, C10) -/

/-- `bsort` permutes its input. -/
theorem bsort_perm (le' : α → α → Bool) (l : List α) : (bsort le' l).Perm l :=
  List.perm_insertionSort _ l

/-- `bsort` with a transitive, total comparator sorts. -/
theorem bsort_pairwise (le' : α → α → Bool)
    (htrans : ∀ a b c, le' a b = true → le' b c = true → le' a c = true)
    (htot : ∀ a b, le' a b = true ∨ le' b a = true) (l : List α) :
    (bsort le' l).Pairwise (fun a b => le' a b = true) := by
  haveI : IsTotal α (fun a b => le' a b = true) := ⟨htot⟩
  haveI : IsTrans α (fun a b => le' a b = true) := ⟨htrans⟩
  exact List.sorted_insertionSort _ l

/-- Stability of `bsort` in filter form: the elements of an equivalence
class of the comparator keep their relative order. -/
theorem bsort_filter_eq (le' : α → α → Bool) (p : α → Bool) (l : List α)
    (hp : ∀ a b, p a = true → p b = true → le' a b = true) :
    (bsort le' l).filter p = l.filter p := by
  have hpw : (l.filter p).Pairwise (fun a b => le' a b = true) :=
    List.pairwise_of_forall_mem_list (fun a ha b hb =>
      hp a b (List.of_mem_filter ha) (List.of_mem_filter hb))
  have hsub : l.filter p <+ bsort le' l :=
    List.sublist_insertionSort hpw (List.filter_sublist l)
  have h2 : l.filter p <+ (bsort le' l).filter p := by
    have h3 := List.Sublist.filter p hsub
    simpa [List.filter_filter] using h3
  have hlen : ((bsort le' l).filter p).length = (l.filter p).length :=
    ((bsort_perm le' l).filter p).length_eq
  exact (h2.eq_of_length hlen.symm).symm

/-- A list whose true-key part and false-key part are both `R`-pairwise
is pairwise `R` on equal keys. -/
theorem pairwise_of_filter_pairwise (f : α → Bool) (R : α → α → Prop) :
    ∀ l : List α, (l.filter f).Pairwise R →
      (l.filter (fun a => !f a)).Pairwise R →
      l.Pairwise (fun a b => f a = f b → R a b)
  | [], _, _ => List.Pairwise.nil
  | a :: t, h1, h2 => by
    constructor
    · intro b hb hab
      cases hfa : f a with
      | true =>
        rw [List.filter_cons_of_pos (by simp [hfa])] at h1
        exact (List.pairwise_cons.mp h1).1 b
          (List.mem_filter.mpr ⟨hb, by rw [← hab, hfa]⟩)
      | false =>
        rw [List.filter_cons_of_pos (by simp [hfa])] at h2
        exact (List.pairwise_cons.mp h2).1 b
          (List.mem_filter.mpr ⟨hb, by simp [← hab, hfa]⟩)
    · apply pairwise_of_filter_pairwise f R t
      · cases hfa : f a with
        | true =>
          rw [List.filter_cons_of_pos (by simp [hfa])] at h1
          exact (List.pairwise_cons.mp h1).2
        | false =>
          rwa [List.filter_cons_of_neg (by simp [hfa])] at h1
      · cases hfa : f a with
        | true =>
          rwa [List.filter_cons_of_neg (by simp [hfa])] at h2
        | false =>
          rw [List.filter_cons_of_pos (by simp [hfa])] at h2
          exact (List.pairwise_cons.mp h2).2

/-- Stability of a boolean-key sorting pass: any pairwise property of
the input holds, after the pass, between elements of equal key. -/
theorem bsort_boolKey_pairwise (f : α → Bool) (R : α → α → Prop) (l : List α)
    (hR : l.Pairwise R) :
    (bsort (boolKeyLe f) l).Pairwise (fun a b => f a = f b → R a b) := by
  apply pairwise_of_filter_pairwise
  · rw [bsort_filter_eq (boolKeyLe f) f l (fun a b ha hb => by
      simp [boolKeyLe, hb])]
    exact hR.filter f
  · rw [bsort_filter_eq (boolKeyLe f) (fun a => !f a) l (fun a b ha hb => by
      simp only [Bool.not_eq_true'] at ha
      simp [boolKeyLe, ha])]
    exact hR.filter _

/-- In a pairwise-`R` list with reflexive `R`, the last element is above
every element. -/
theorem pairwise_rel_getLast {R : α → α → Prop} (hrefl : ∀ a, R a a) :
    ∀ (l : List α) (hne : l ≠ []), l.Pairwise R → ∀ c ∈ l, R c (l.getLast hne)
  | [], hne, _, _, _ => absurd rfl hne
  | [a], _, _, c, hc => by
    simp only [List.mem_singleton] at hc
    subst hc
    exact hrefl c
  | a :: b :: t, hne, hp, c, hc => by
    rw [List.getLast_cons (by simp : b :: t ≠ [])]
    rcases List.mem_cons.mp hc with rfl | hc'
    · exact (List.pairwise_cons.mp hp).1 _ (List.getLast_mem _)
    · exact pairwise_rel_getLast hrefl (b :: t) (by simp)
        (List.pairwise_cons.mp hp).2 c hc'

/-- `cardLe` as arithmetic on rank and suit. -/
theorem cardLe_iff (a b : Card) :
    cardLe a b = true ↔
      (a.rank < b.rank ∨ (a.rank = b.rank ∧ a.suit ≤ b.suit)) := by
  simp [cardLe, Card.ltB]
  omega

/-- `cardLe` is transitive. -/
theorem cardLe_trans (a b c : Card) :
    cardLe a b = true → cardLe b c = true → cardLe a c = true := by
  rw [cardLe_iff, cardLe_iff, cardLe_iff]
  omega

/-- `cardLe` is total. -/
theorem cardLe_total (a b : Card) : cardLe a b = true ∨ cardLe b a = true := by
  rw [cardLe_iff, cardLe_iff]
  omega

/-- `boolKeyLe` is transitive. -/
theorem boolKeyLe_trans (f : α → Bool) (a b c : α) :
    boolKeyLe f a b = true → boolKeyLe f b c = true →
    boolKeyLe f a c = true := by
  cases hfa : f a <;> cases hfb : f b <;> cases hfc : f c <;>
    simp [boolKeyLe, hfa, hfb, hfc]

/-- `boolKeyLe` is total. -/
theorem boolKeyLe_total (f : α → Bool) (a b : α) :
    boolKeyLe f a b = true ∨ boolKeyLe f b a = true := by
  cases hfa : f a <;> cases hfb : f b <;> simp [boolKeyLe, hfa, hfb]

/-- The three stable passes of `Trick.sort` leave the result pairwise
ordered by: the trump key; the lead key on equal trump keys; the card
order on equal trump and lead keys. -/
theorem sortCards_pairwise_key (key : α → Card) (lead trump : Option Nat)
    (cs : List α) :
    (sortCards key lead trump cs).Pairwise (fun a b =>
      (boolKeyLe (fun x => (key x).is_trump trump) a b = true) ∧
      (((key a).is_trump trump = (key b).is_trump trump →
        boolKeyLe (fun x => (key x).has_lead_suit lead) a b = true) ∧
      ((key a).is_trump trump = (key b).is_trump trump →
        ((key a).has_lead_suit lead = (key b).has_lead_suit lead →
          cardLe (key a) (key b) = true)))) := by
  have h1 : (bsort (fun a b => cardLe (key a) (key b)) cs).Pairwise
      (fun a b => cardLe (key a) (key b) = true) :=
    bsort_pairwise _ (fun a b c => cardLe_trans (key a) (key b) (key c))
      (fun a b => cardLe_total (key a) (key b)) cs
  have h2sorted := bsort_pairwise
    (boolKeyLe (fun x => (key x).has_lead_suit lead))
    (boolKeyLe_trans _) (boolKeyLe_total _)
    (bsort (fun a b => cardLe (key a) (key b)) cs)
  have h2stable := bsort_boolKey_pairwise
    (fun x => (key x).has_lead_suit lead) _ _ h1
  have h3a := bsort_pairwise (boolKeyLe (fun x => (key x).is_trump trump))
    (boolKeyLe_trans _) (boolKeyLe_total _)
    (bsort (boolKeyLe (fun x => (key x).has_lead_suit lead))
      (bsort (fun a b => cardLe (key a) (key b)) cs))
  have h3b := bsort_boolKey_pairwise
    (fun x => (key x).is_trump trump) _ _ h2sorted
  have h3c := bsort_boolKey_pairwise
    (fun x => (key x).is_trump trump) _ _ h2stable
  exact h3a.and (h3b.and h3c)

/-- Combining the three pairwise facts into the claim's three-key
order. -/
theorem keys_to_trickKeyLe {lead trump : Option Nat} {a b : Card}
    (h1 : boolKeyLe (fun x => Card.is_trump x trump) a b = true)
    (h2 : a.is_trump trump = b.is_trump trump →
      boolKeyLe (fun x => Card.has_lead_suit x lead) a b = true)
    (h3 : a.is_trump trump = b.is_trump trump →
      (a.has_lead_suit lead = b.has_lead_suit lead → cardLe a b = true)) :
    trickKeyLe lead trump a b := by
  by_cases hteq : a.is_trump trump = b.is_trump trump
  · refine Or.inr ⟨hteq, ?_⟩
    have h2' := h2 hteq
    by_cases hleq : a.has_lead_suit lead = b.has_lead_suit lead
    · refine Or.inr ⟨hleq, ?_⟩
      have h3' := h3 hteq hleq
      rw [cardLe_iff] at h3'
      exact h3'
    · left
      cases hla : a.has_lead_suit lead <;>
        cases hlb : b.has_lead_suit lead <;>
        simp_all [bLt, boolKeyLe]
  · left
    cases hta : a.is_trump trump <;> cases htb : b.is_trump trump <;>
      simp_all [bLt, boolKeyLe]

/-- `trickKeyLe` is reflexive. -/
theorem trickKeyLe_refl (lead trump : Option Nat) (a : Card) :
    trickKeyLe lead trump a a :=
  Or.inr ⟨rfl, Or.inr ⟨rfl, Or.inr ⟨rfl, le_refl _⟩⟩⟩

/-- Two cards matching the same defined suit key have the same suit. -/
theorem suit_eq_of_same_key {s : Option Nat} {a b : Card}
    (ha : (some a.suit == s) = true) (hb : (some b.suit == s) = true) :
    a.suit = b.suit := by
  rw [beq_iff_eq] at ha hb
  rw [← hb] at ha
  exact (Option.some.injEq .. ▸ ha)

/-- C2: on a non-empty trick, `highest_card` returns a maximum under the
three-key order; in particular with any trump present it returns the
highest-ranked trump card, with no trump but lead cards present the
highest-ranked lead card, and otherwise the overall highest card by
`(rank, suit)`. -/
theorem claim2_highest_card (lead trump : Option Nat) (cs : List Card)
    (hne : cs ≠ []) :
    ∃ r, highest_card_of id lead trump cs = some r ∧ r ∈ cs ∧
      (∀ c ∈ cs, trickKeyLe lead trump c r) ∧
      ((∃ c ∈ cs, c.is_trump trump = true) →
        r.is_trump trump = true ∧
        ∀ c ∈ cs, c.is_trump trump = true → c.rank ≤ r.rank) ∧
      ((∀ c ∈ cs, c.is_trump trump = false) →
        (∃ c ∈ cs, c.has_lead_suit lead = true) →
        r.has_lead_suit lead = true ∧
        ∀ c ∈ cs, c.has_lead_suit lead = true → c.rank ≤ r.rank) ∧
      ((∀ c ∈ cs, c.is_trump trump = false ∧ c.has_lead_suit lead = false) →
        ∀ c ∈ cs, c.rank < r.rank ∨ (c.rank = r.rank ∧ c.suit ≤ r.suit)) := by
  have hperm : (sortCards id lead trump cs).Perm cs := by
    unfold sortCards
    exact (bsort_perm _ _).trans ((bsort_perm _ _).trans (bsort_perm _ _))
  have houtne : sortCards id lead trump cs ≠ [] := by
    intro hcontra
    rw [hcontra] at hperm
    exact hne (hperm.symm.eq_nil)
  set r := (sortCards id lead trump cs).getLast houtne with hrdef
  have hr2 : (sortCards id lead trump cs).getLast? = some r :=
    List.getLast?_eq_getLast _ houtne
  have hpw : (sortCards id lead trump cs).Pairwise (trickKeyLe lead trump) := by
    refine (sortCards_pairwise_key id lead trump cs).imp ?_
    intro a b hab
    exact keys_to_trickKeyLe hab.1 hab.2.1 hab.2.2
  have hmax : ∀ c ∈ cs, trickKeyLe lead trump c r := fun c hc =>
    pairwise_rel_getLast (trickKeyLe_refl lead trump) _ houtne hpw c
      (hperm.mem_iff.mpr hc)
  have hrmem : r ∈ cs := hperm.mem_iff.mp (List.getLast_mem houtne)
  refine ⟨r, hr2, hrmem, hmax, ?_, ?_, ?_⟩
  · rintro ⟨c0, hc0, ht0⟩
    have hTr : r.is_trump trump = true := by
      by_contra hf
      rcases hmax c0 hc0 with ⟨hb1, hb2⟩ | ⟨heq, _⟩
      · exact hf hb2
      · rw [ht0] at heq
        exact hf heq.symm
    refine ⟨hTr, fun c hc htc => ?_⟩
    have hsuit : c.suit = r.suit := suit_eq_of_same_key htc hTr
    rcases hmax c hc with ⟨hb1, _⟩ | ⟨_, hrest⟩
    · rw [htc] at hb1
      exact absurd hb1 (by simp)
    · have hl : c.has_lead_suit lead = r.has_lead_suit lead := by
        simp [Card.has_lead_suit, hsuit]
      rcases hrest with ⟨hb2, hb3⟩ | ⟨_, h3⟩
      · rw [hl] at hb2
        exact Bool.noConfusion (hb2.symm.trans hb3)
      · rcases h3 with h4 | ⟨h4, _⟩
        · omega
        · omega
  · intro hNoT hex
    rcases hex with ⟨c0, hc0, hl0⟩
    have hTr : r.is_trump trump = false := hNoT r hrmem
    have hLr : r.has_lead_suit lead = true := by
      by_contra hf
      rcases hmax c0 hc0 with ⟨_, hb2⟩ | ⟨_, hrest⟩
      · rw [hTr] at hb2
        exact Bool.noConfusion hb2
      · rcases hrest with ⟨hb1, hb2⟩ | ⟨heq, _⟩
        · rw [hl0] at hb1
          exact Bool.noConfusion hb1
        · rw [hl0] at heq
          exact hf heq.symm
    refine ⟨hLr, fun c hc hlc => ?_⟩
    have hsuit : c.suit = r.suit := suit_eq_of_same_key hlc hLr
    rcases hmax c hc with ⟨_, hb2⟩ | ⟨_, hrest⟩
    · rw [hTr] at hb2
      exact Bool.noConfusion hb2
    · rcases hrest with ⟨hb1, _⟩ | ⟨_, h3⟩
      · rw [hlc] at hb1
        exact absurd hb1 (by simp)
      · rcases h3 with h4 | ⟨h4, _⟩
        · omega
        · omega
  · intro hall c hc
    have hcf := hall c hc
    have hrf := hall r hrmem
    rcases hmax c hc with ⟨_, hb2⟩ | ⟨_, hrest⟩
    · rw [hrf.1] at hb2
      exact Bool.noConfusion hb2
    · rcases hrest with ⟨_, hb2⟩ | ⟨_, h3⟩
      · rw [hrf.2] at hb2
        exact Bool.noConfusion hb2
      · exact h3

/-- C2 witness: the specification scenario — trump Hearts (2), lead
Clubs (0), trick `[2♣, K♣, 3♥]`: the 3 of Hearts wins. -/
theorem claim2_witness :
    highest_card_of id (some 0) (some 2)
        [Card.mk 0 2, Card.mk 0 13, Card.mk 2 3] = some (Card.mk 2 3) ∧
    (∃ r, highest_card_of id (some 0) (some 2)
        [Card.mk 0 2, Card.mk 0 13, Card.mk 2 3] = some r ∧
      r ∈ [Card.mk 0 2, Card.mk 0 13, Card.mk 2 3] ∧
      r.is_trump (some 2) = true) := by
  refine ⟨by decide, ?_⟩
  obtain ⟨r, hr1, hr2, hr3, hr4, _⟩ :=
    claim2_highest_card (some 0) (some 2)
      [Card.mk 0 2, Card.mk 0 13, Card.mk 2 3] (by decide)
  exact ⟨r, hr1, hr2, (hr4 ⟨Card.mk 2 3, by decide, by decide⟩).1⟩

/-! ## C10: `highest_card` sorts the trick in place -/

/-- C10: `Trick.highest_card` is not a pure query — there are tricks
whose card list it reorders (while only permuting it), so the play
order is destroyed; the winner can still be mapped to a player only
because `Player.start` stamps the playing player's label on the card,
and `Game.leading_player` reads the winner through precisely that
stamped label (and leaves the sorted list behind in the trick). -/
theorem claim10_sort_in_place :
    (sortCards id (some 0) (some 2)
        [Card.mk 2 3, Card.mk 0 13, Card.mk 0 2] ≠
      [Card.mk 2 3, Card.mk 0 13, Card.mk 0 2]) ∧
    (∀ (lead trump : Option Nat) (cs : List GCard),
      (sortCards GCard.toCard lead trump cs).Perm cs) ∧
    (∀ (p : GPlayer) (lead trump : Option Nat) (q : GPlayer) (c : GCard),
      player_start p lead trump = some (q, c) →
      c.label = some p.label ∧ q.played_card = some c) ∧
    (∀ (g : Game) (p : GPlayer) (g' : Game),
      leading_player g = some (p, g') →
      g'.trick.cards = sortCards GCard.toCard g.trick.lead_suit
        g.trick.trump_suit g.trick.cards ∧
      (∃ c : GCard, (sortCards GCard.toCard g.trick.lead_suit
          g.trick.trump_suit g.trick.cards).getLast? = some c ∧
        some p = c.label.bind (fun lbl => pyGet g.players (lbl : Int)))) := by
  refine ⟨by decide, ?_, ?_, ?_⟩
  · intro lead trump cs
    unfold sortCards
    exact (bsort_perm _ _).trans ((bsort_perm _ _).trans (bsort_perm _ _))
  · intro p lead trump q c h
    simp only [player_start] at h
    rcases hp : pyGet (playable_cards (fun c => c.suit) p.hand lead trump) 0
      with _ | c0 <;> rw [hp] at h
    · simp at h
    · simp only [Option.bind_eq_bind, Option.some_bind, Option.pure_def,
        Option.some.injEq, Prod.mk.injEq] at h
      obtain ⟨hq, hc⟩ := h
      subst hq
      subst hc
      exact ⟨rfl, rfl⟩
  · intro g p g' h
    simp only [leading_player, GTrick.highest_card] at h
    rcases hs : (sortCards GCard.toCard g.trick.lead_suit g.trick.trump_suit
        g.trick.cards).getLast? with _ | c <;> rw [hs] at h
    · simp at h
    · simp only [Option.bind_eq_bind, Option.some_bind] at h
      rcases hl : c.label with _ | lbl <;> rw [hl] at h
      · simp at h
      · simp only [Option.bind_eq_bind, Option.some_bind] at h
        rcases hpg : pyGet g.players (lbl : Int) with _ | p0 <;> rw [hpg] at h
        · simp at h
        · simp only [Option.bind_eq_bind, Option.some_bind, Option.pure_def,
            Option.some.injEq, Prod.mk.injEq] at h
          obtain ⟨hp0, hg'⟩ := h
          subst hp0
          subst hg'
          refine ⟨rfl, c, rfl, ?_⟩
          rw [hl]
          simp only [Option.some_bind, hpg]

/-- C10 witness: a player labelled 2 playing their only card stamps the
label 2 on it and records it as the played card. -/
theorem claim10_witness :
    (⟨⟨1, 7⟩, some 2⟩ : GCard).label = some 2 ∧
    (⟨2, [⟨⟨1, 7⟩, some 2⟩], some ⟨⟨1, 7⟩, some 2⟩, 0, 0, 0⟩ :
      GPlayer).played_card = some ⟨⟨1, 7⟩, some 2⟩ :=
  claim10_sort_in_place.2.2.1 ⟨2, [⟨⟨1, 7⟩, none⟩], none, 0, 0, 0⟩ none none
    ⟨2, [⟨⟨1, 7⟩, some 2⟩], some ⟨⟨1, 7⟩, some 2⟩, 0, 0, 0⟩
    ⟨⟨1, 7⟩, some 2⟩ (by decide)

/-! ## C4: `tricks_won` is never reset between rounds -/

/-- C4 (refuting the claim): in the deterministic game, at the start of
round 2's play phase the round-1 trick winner still has
`tricks_won = 1` (the code never resets it), while the scores from
round 1 persist as `[-2, 5, 5, 5]`. -/
theorem claim4_tricks_not_reset :
    round2PrePlay.map (fun g => (g.round, g.players.map GPlayer.tricks_won,
      g.players.map GPlayer.score)) =
      some (2, [1, 0, 0, 0], [-2, 5, 5, 5]) ∧
    round2PrePlay.map (fun g => g.players.map GPlayer.tricks_won) ≠
      some [0, 0, 0, 0] := by
  constructor
  · decide
  · decide

/-! ## C5: order of the phases inside one round -/

/-- Trace effect of `phase_starting`. -/
theorem phase_starting_trace {g g' : Game} (h : phase_starting g = some g') :
    g'.trace = g.trace ++ [Phase.starting] := by
  simp only [phase_starting] at h
  rcases hnp : next_player g g.label with _ | pg <;> rw [hnp] at h
  · simp at h
  · simp only [Option.bind_eq_bind, Option.some_bind, Option.pure_def, Option.some.injEq] at h
    rw [← h]

/-- Trace effect of `phase_trump`. -/
theorem phase_trump_trace {shuf : List GCard → List GCard} {g g' : Game}
    (h : phase_trump shuf g = some g') :
    g'.trace = g.trace ++ [Phase.trumpAssign] := by
  simp only [phase_trump] at h
  split at h
  · rcases hc : pyGet g.deck (-1) with _ | c <;> rw [hc] at h
    · simp at h
    · simp only [Option.bind_eq_bind, Option.some_bind, Option.pure_def, Option.some.injEq] at h
      rw [← h]
  · simp only [Option.some.injEq] at h
    rw [← h]

/-- Trace effect of `phase_dealing`. -/
theorem phase_dealing_trace {g g' : Game} (h : phase_dealing g = some g') :
    g'.trace = g.trace ++ [Phase.dealing] := by
  simp only [phase_dealing] at h
  rcases hn : pyGet noc ((g.round : Int) - 1) with _ | n <;> rw [hn] at h
  · simp at h
  · simp only [Option.bind_eq_bind, Option.some_bind] at h
    rcases hd : deal_loop n g.players g.deck with _ | pd <;> rw [hd] at h
    · simp at h
    · simp only [Option.bind_eq_bind, Option.some_bind, Option.pure_def, Option.some.injEq] at h
      rw [← h]

/-- Trace effect of `phase_playing`. -/
theorem phase_playing_trace {fuel : Nat} {g g' : Game}
    (h : phase_playing fuel g = some g') :
    g'.trace = g.trace ++ [Phase.playing] := by
  simp only [phase_playing] at h
  rcases hp : play_loop fuel g none with _ | g1 <;> rw [hp] at h
  · simp at h
  · simp only [Option.bind_eq_bind, Option.some_bind, Option.pure_def, Option.some.injEq] at h
    rw [← h]

/-- C5 counterexample: the deterministic round-1 trace shows the trump
assignment strictly before the dealing phase, refuting
"deal happens before trump assignment". -/
theorem claim5_counterexample :
    afterRound1.map Game.trace = some roundTrace ∧
    Phase.dealing ∈ roundTrace ∧ Phase.trumpAssign ∈ roundTrace ∧
    ¬ roundTrace.indexOf Phase.dealing < roundTrace.indexOf Phase.trumpAssign := by
  refine ⟨by decide, by decide, by decide, by decide⟩

/-- C5 (amended): every completed round appends exactly the phase tags
starting-player, shuffle, trump assignment, dealing, play, scoring — in
that order; in particular trump assignment happens strictly before
dealing. -/
theorem claim5_amended (shuf : List GCard → List GCard) (fuel : Nat)
    (g g' : Game) (h : run_round shuf fuel g = some g') :
    g'.trace = g.trace ++ roundTrace ∧
    roundTrace.indexOf Phase.trumpAssign < roundTrace.indexOf Phase.dealing := by
  refine ⟨?_, by decide⟩
  simp only [run_round] at h
  rcases h1 : phase_starting g with _ | g1 <;> rw [h1] at h
  · simp at h
  simp only [Option.bind_eq_bind, Option.some_bind] at h
  rcases h3 : phase_trump shuf (phase_shuffling shuf g1) with _ | g3 <;>
    rw [h3] at h
  · simp at h
  simp only [Option.bind_eq_bind, Option.some_bind] at h
  rcases h4 : phase_dealing g3 with _ | g4 <;> rw [h4] at h
  · simp at h
  simp only [Option.bind_eq_bind, Option.some_bind] at h
  rcases h5 : phase_playing fuel g4 with _ | g5 <;> rw [h5] at h
  · simp at h
  simp only [Option.bind_eq_bind, Option.some_bind, Option.pure_def, Option.some.injEq] at h
  have hg' : g'.trace = (phase_scoring g5).trace := by
    rw [← h]
  have t2 : (phase_shuffling shuf g1).trace = g1.trace ++ [Phase.shuffling] :=
    rfl
  have t6 : (phase_scoring g5).trace = g5.trace ++ [Phase.scoring] := rfl
  rw [hg', t6, phase_playing_trace h5, phase_dealing_trace h4,
    phase_trump_trace h3, t2, phase_starting_trace h1, roundTrace]
  simp [List.append_assoc]

/-- C5 witness: the deterministic round 1 completes and its trace is the
six tags in order. -/
theorem claim5_witness :
    run_round id 64 g0def = some g1def ∧
    (g1def.trace = g0def.trace ++ roundTrace ∧
      roundTrace.indexOf Phase.trumpAssign <
        roundTrace.indexOf Phase.dealing) :=
  ⟨by decide, claim5_amended id 64 g0def g1def (by decide)⟩

end Boerenbridge
